import Mathlib

/-!
Shallow embedding of the hare message broker (`hare/broker.go`).

The broker dispatches gossip messages to per-instance delivery queues.
We model its state (`outbox`, `pending`, `maxReg`), one iteration of the
dispatcher loop on one ingress item (`processMsg`), and the `Register` /
`Unregister` operations, faithfully following the Go source.

Modelling decisions, justified against the source:
* `InstanceId` is a Go unsigned integer; no arithmetic beyond `+ 1` and
  comparisons occurs in the broker, so `Nat` is used (overflow never
  matters on the reachable values the claims concern).
* `proto.Unmarshal` and the external validator are collaborators outside
  the broker; they are passed in as function parameters `d` (decoding,
  `none` models an unmarshal error) and `v`.
* A Go buffered channel is a `Chan` (capacity plus the list of buffered
  messages, front = oldest).  A send on a buffered channel with no
  possible receiver completes exactly when the buffer has room;
  `Chan.send` returns `none` when the send blocks forever.  `Register`
  sweeps `pending` into the freshly made channel while holding the write
  lock, and the channel has not yet been returned to any consumer, so no
  receiver can exist there and `Chan.send` is the right model.  The
  delivery send of the dispatcher happens outside the lock, to a channel whose
  consumer may drain concurrently, so that send eventually completes;
  it is modelled by the unconditional `Chan.push` (the buffer then holds
  every message sent and not yet consumed).
* `ReportValidation` calls, external-validator invocations and channel
  deliveries are effects on collaborators; one dispatcher iteration
  returns a `StepLog` recording them in order.
-/

namespace HareBroker

/-- Instance ids (`InstanceId` in the source): unsigned integers. -/
abbrev InstanceId := Nat

/-- The `InboxCapacity` constant of the source: delivery queues hold 100. -/
def InboxCapacity : Nat := 100

/-- The only part of `pb.HareMessage.Message` the broker reads is the
instance id; the rest of the record is opaque payload, abstracted as a
`Nat` so that distinct messages for one instance stay distinct. -/
structure InnerMsg where
  instanceId : Nat
  payload : Nat
  deriving DecidableEq

/-- A decoded `pb.HareMessage`; its `Message` field may be nil. -/
structure HareMessage where
  message : Option InnerMsg
  deriving DecidableEq

/-- Raw wire bytes of a gossip envelope. -/
abbrev Bytes := List Nat

/-- A `service.GossipMessage` envelope: the broker only reads `Bytes()`
and calls `ReportValidation` (recorded in the step log). -/
structure GossipMessage where
  bytes : Bytes
  deriving DecidableEq

/-- A buffered Go channel of `HareMessage`: its capacity and the queue of
buffered messages, oldest first. -/
structure Chan where
  cap : Nat
  buf : List HareMessage
  deriving DecidableEq

/-- A send on a buffered channel when no receiver can ever take from it:
completes exactly when the buffer has room, otherwise blocks forever
(`none`).  Used for the pending sweep inside `Register`, which holds the
write lock of the broker and has not yet handed the channel to any consumer. -/
def Chan.send (c : Chan) (m : HareMessage) : Option Chan :=
  if c.buf.length < c.cap then some ⟨c.cap, c.buf ++ [m]⟩ else none

/-- A send on a buffered channel whose registered consumer may drain it
concurrently: the send eventually completes, appending at the tail.  Used
for the delivery `c <- hareMsg` in the dispatcher. -/
def Chan.push (c : Chan) (m : HareMessage) : Chan :=
  ⟨c.cap, c.buf ++ [m]⟩

/-- Pointwise update of a finite map modelled as `Nat → Option α`
(`none` = key absent, mirroring Go map lookup/`delete`). -/
def mapUpdate {α : Type} (m : Nat → Option α) (k : Nat) (v : Option α) :
    Nat → Option α :=
  fun j => if j = k then v else m j

/-- The broker state guarded by its reader/writer lock: `outbox` (the
registered delivery channels), `pending` (messages parked for a
near-future instance) and the watermark `maxReg`. -/
structure Broker where
  outbox : InstanceId → Option Chan
  pending : InstanceId → Option (List HareMessage)
  maxReg : InstanceId

/-- The state `NewBroker` constructs: empty maps, zero-valued watermark. -/
def initBroker : Broker :=
  { outbox := fun _ => none, pending := fun _ => none, maxReg := 0 }

/-- Observable effects of one dispatcher iteration: the verdicts passed
to `ReportValidation`, the messages handed to the external validator, and
the deliveries performed on outbox channels, each in call order. -/
structure StepLog where
  reports : List Bool
  validatorCalls : List HareMessage
  delivered : List (InstanceId × HareMessage)
  deriving DecidableEq

/-- One iteration of the dispatcher loop on one item taken from the
ingress channel (`none` models a nil envelope), following the source
line by line:
nil check, unmarshal, nil-payload check, watermark snapshot, far-future
gate, near-future mark, external validation, `ReportValidation(true)`,
then route: deliver to `outbox`, else park in `pending` when near-future,
else drop. -/
def processMsg (d : Bytes → Option HareMessage) (v : HareMessage → Bool)
    (st : Broker) (msg : Option GossipMessage) : Broker × StepLog :=
  match msg with
  | none => (st, ⟨[], [], []⟩)
  | some m =>
    match d m.bytes with
    | none => (st, ⟨[false], [], []⟩)
    | some hareMsg =>
      match hareMsg.message with
      | none => (st, ⟨[false], [], []⟩)
      | some inner =>
        if st.maxReg + 1 < inner.instanceId then
          (st, ⟨[false], [], []⟩)
        else
          if v hareMsg = false then
            (st, ⟨[false], [hareMsg], []⟩)
          else
            match st.outbox inner.instanceId with
            | some c =>
              ({ st with outbox :=
                  mapUpdate st.outbox inner.instanceId (some (c.push hareMsg)) },
               ⟨[true], [hareMsg], [(inner.instanceId, hareMsg)]⟩)
            | none =>
              if inner.instanceId = st.maxReg + 1 then
                let parked := (st.pending inner.instanceId).getD [] ++ [hareMsg]
                ({ st with pending :=
                    mapUpdate st.pending inner.instanceId (some parked) },
                 ⟨[true], [hareMsg], []⟩)
              else
                (st, ⟨[true], [hareMsg], []⟩)

/-- Sequential sends of a list of messages into a channel that can never
be drained meanwhile (the pending sweep of `Register`); `none` when some
send blocks forever. -/
def sendAll : Chan → List HareMessage → Option Chan
  | c, [] => some c
  | c, m :: ms =>
    match c.send m with
    | some c2 => sendAll c2 ms
    | none => none

/-- The `Broker.Register` operation: raise the watermark to `max maxReg id`, install a
fresh channel of capacity `InboxCapacity` in `outbox[id]`, and when a
pending entry exists sweep its messages into the channel in parked order
and delete the entry.  The whole body runs under the write lock, so a
sweep into a full channel blocks forever (`none`).  Returns the updated
state and the channel handed back to the caller. -/
def Broker.register (st : Broker) (id : InstanceId) : Option (Broker × Chan) :=
  let newMax := if st.maxReg < id then id else st.maxReg
  let c : Chan := ⟨InboxCapacity, []⟩
  match st.pending id with
  | none =>
    some ({ outbox := mapUpdate st.outbox id (some c),
            pending := st.pending, maxReg := newMax }, c)
  | some ms =>
    match sendAll c ms with
    | some c2 =>
      some ({ outbox := mapUpdate st.outbox id (some c2),
              pending := mapUpdate st.pending id none, maxReg := newMax }, c2)
    | none => none

/-- The `Broker.Unregister` operation: delete `outbox[id]` under the write lock. -/
def Broker.unregister (st : Broker) (id : InstanceId) : Broker :=
  { st with outbox := mapUpdate st.outbox id none }

/-- One observable transition of the broker state: a dispatcher iteration
on some ingress item, a completed `Register` call, or an `Unregister`
call. -/
inductive Step (d : Bytes → Option HareMessage) (v : HareMessage → Bool) :
    Broker → Broker → Prop where
  | msg (st : Broker) (env : Option GossipMessage) :
      Step d v st (processMsg d v st env).1
  | reg (st : Broker) (id : InstanceId) (st' : Broker) (c : Chan) :
      st.register id = some (st', c) → Step d v st st'
  | unreg (st : Broker) (id : InstanceId) : Step d v st (st.unregister id)

/-- Broker states reachable from the freshly constructed broker by any
sequence of dispatcher iterations and `Register`/`Unregister` calls. -/
inductive Reachable (d : Bytes → Option HareMessage) (v : HareMessage → Bool) :
    Broker → Prop where
  | init : Reachable d v initBroker
  | step {st st' : Broker} :
      Reachable d v st → Step d v st st' → Reachable d v st'

/-- A transition as in `Step`, except that `Register` is only called with
ids at most one past the current watermark (no skipping). -/
inductive StepNoSkip (d : Bytes → Option HareMessage) (v : HareMessage → Bool) :
    Broker → Broker → Prop where
  | msg (st : Broker) (env : Option GossipMessage) :
      StepNoSkip d v st (processMsg d v st env).1
  | reg (st : Broker) (id : InstanceId) (st' : Broker) (c : Chan) :
      id ≤ st.maxReg + 1 → st.register id = some (st', c) → StepNoSkip d v st st'
  | unreg (st : Broker) (id : InstanceId) : StepNoSkip d v st (st.unregister id)

/-- States reachable when every `Register` call uses an id at most one
past the watermark current at the time of the call. -/
inductive ReachableNoSkip (d : Bytes → Option HareMessage)
    (v : HareMessage → Bool) : Broker → Prop where
  | init : ReachableNoSkip d v initBroker
  | step {st st' : Broker} :
      ReachableNoSkip d v st → StepNoSkip d v st st' → ReachableNoSkip d v st'

/-- The pending map holds a non-empty list of parked messages at `i`. -/
def PendingPopulated (st : Broker) (i : InstanceId) : Prop :=
  ∃ l, st.pending i = some l ∧ l ≠ []

/-- The pending map has at most one populated key. -/
def AtMostOnePending (st : Broker) : Prop :=
  ∀ i j, PendingPopulated st i → PendingPopulated st j → i = j

/-- Decoder used for concrete runs: a two-element byte list decodes to a
message with that instance id and payload, anything else fails to
unmarshal. -/
def decode0 : Bytes → Option HareMessage
  | [i, p] => some ⟨some ⟨i, p⟩⟩
  | _ => none

/-- External validator used for concrete runs: accepts everything. -/
def validate0 : HareMessage → Bool := fun _ => true

/-- The broker state after the dispatcher delivers `m` onto the channel
`c` registered at `i`. -/
def deliverTo (st : Broker) (i : InstanceId) (c : Chan) (m : HareMessage) : Broker :=
  { st with outbox := mapUpdate st.outbox i (some (c.push m)) }

/-- The broker state after the dispatcher parks `m` in `pending[i]`. -/
def parkAt (st : Broker) (i : InstanceId) (m : HareMessage) : Broker :=
  { st with pending := mapUpdate st.pending i (some ((st.pending i).getD [] ++ [m])) }

/-- First step of the trace refuting claim C4 as stated: a message for
instance 1 parks in `pending[1]` while the watermark is 0. -/
def cexA : Broker := (processMsg decode0 validate0 initBroker (some ⟨[1, 0]⟩)).1

/-- Second step: `Register(5)` jumps the watermark from 0 to 5, leaving
`pending[1]` populated. -/
def cexB : Broker := ((cexA.register 5).getD (cexA, ⟨0, []⟩)).1

/-- Third step: a message for instance 6 — now near-future — parks in
`pending[6]`, so two pending keys are populated at once. -/
def cexC : Broker := (processMsg decode0 validate0 cexB (some ⟨[6, 0]⟩)).1

/-- A broker with two messages already parked for instance 1 and an
empty outbox, used to exercise the `Register` pending sweep. -/
def twoPendingSt : Broker :=
  { outbox := fun _ => none,
    pending := mapUpdate (fun _ => none) 1 (some [⟨some ⟨1, 0⟩⟩, ⟨some ⟨1, 1⟩⟩]),
    maxReg := 0 }

/-- The state and queue returned by `Register(1)` on `twoPendingSt`. -/
def regPair : Broker × Chan := (twoPendingSt.register 1).getD (twoPendingSt, ⟨0, []⟩)

/-- The broker after `Register(3)` on the fresh broker. -/
def reg3St : Broker := ((initBroker.register 3).getD (initBroker, ⟨0, []⟩)).1

/-- The broker after `Register(0)` on the fresh broker. -/
def reg0St : Broker := ((initBroker.register 0).getD (initBroker, ⟨0, []⟩)).1

/-- A broker with 101 messages parked for instance 5: one more than the
delivery-queue capacity. -/
def bigPendSt : Broker :=
  { outbox := fun _ => none,
    pending := mapUpdate (fun _ => none) 5 (some (List.replicate 101 ⟨some ⟨5, 0⟩⟩)),
    maxReg := 4 }

end HareBroker

namespace HareBroker

/-- Case analysis on the state left by one dispatcher iteration: either
the state is unchanged, or one message was delivered onto an existing
outbox channel, or one message was parked for the near-future id
`maxReg + 1` (only possible when that id has no outbox entry). -/
theorem processMsg_state_cases (d : Bytes → Option HareMessage)
    (v : HareMessage → Bool) (st : Broker) (env : Option GossipMessage) :
    (processMsg d v st env).1 = st ∨
    (∃ i c m, st.outbox i = some c ∧
      (processMsg d v st env).1 = deliverTo st i c m) ∨
    (∃ m, st.outbox (st.maxReg + 1) = none ∧
      (processMsg d v st env).1 = parkAt st (st.maxReg + 1) m) := by
  cases env with
  | none => left; rfl
  | some e =>
    cases hd : d e.bytes with
    | none => left; simp [processMsg, hd]
    | some hm =>
      cases hmm : hm.message with
      | none => left; simp [processMsg, hd, hmm]
      | some inner =>
        by_cases hfar : st.maxReg + 1 < inner.instanceId
        · left; simp [processMsg, hd, hmm, hfar]
        · by_cases hv : v hm = false
          · left; simp [processMsg, hd, hmm, hfar, hv]
          · cases hout : st.outbox inner.instanceId with
            | some c =>
              right; left
              exact ⟨inner.instanceId, c, hm, hout, by
                simp [processMsg, deliverTo, hd, hmm, hfar, hv, hout]⟩
            | none =>
              by_cases hfut : inner.instanceId = st.maxReg + 1
              · right; right
                rw [hfut] at hout
                refine ⟨hm, hout, ?_⟩
                simp [processMsg, parkAt, hd, hmm, hfar, hv, hout, hfut]
              · left; simp [processMsg, hd, hmm, hfar, hv, hout, hfut]

/-- One dispatcher iteration never moves the watermark. -/
theorem processMsg_maxReg (d : Bytes → Option HareMessage)
    (v : HareMessage → Bool) (st : Broker) (env : Option GossipMessage) :
    (processMsg d v st env).1.maxReg = st.maxReg := by
  rcases processMsg_state_cases d v st env with h | ⟨i, c, m, _, h⟩ | ⟨m, _, h⟩ <;>
    rw [h] <;> rfl



/-- A completed pending sweep keeps the capacity and appends exactly the
swept messages, in order, at the tail of the buffer. -/
theorem sendAll_spec (ms : List HareMessage) : ∀ c c2 : Chan,
    sendAll c ms = some c2 → c2.cap = c.cap ∧ c2.buf = c.buf ++ ms := by
  induction ms with
  | nil =>
    intro c c2 h
    simp only [sendAll, Option.some.injEq] at h
    subst h; simp
  | cons m ms ih =>
    intro c c2 h
    simp only [sendAll] at h
    cases hs : c.send m with
    | none => rw [hs] at h; cases h
    | some c1 =>
      rw [hs] at h
      obtain ⟨hcap, hbuf⟩ := ih c1 c2 h
      unfold Chan.send at hs
      by_cases hlt : c.buf.length < c.cap
      · rw [if_pos hlt] at hs
        cases hs
        constructor
        · exact hcap
        · rw [hbuf]; simp
      · rw [if_neg hlt] at hs; cases hs

/-- The pending sweep completes exactly when the messages fit in the
remaining capacity of the channel. -/
theorem sendAll_isSome_iff (ms : List HareMessage) : ∀ c : Chan,
    c.buf.length ≤ c.cap →
    ((sendAll c ms).isSome = true ↔ c.buf.length + ms.length ≤ c.cap) := by
  induction ms with
  | nil =>
    intro c hc
    simpa [sendAll] using hc
  | cons m ms ih =>
    intro c hc
    simp only [sendAll]
    unfold Chan.send
    by_cases hlt : c.buf.length < c.cap
    · rw [if_pos hlt]
      have h2 := ih ⟨c.cap, c.buf ++ [m]⟩
        (by simp only [List.length_append, List.length_cons, List.length_nil]; omega)
      simp only [List.length_append, List.length_cons, List.length_nil] at h2
      rw [h2]
      simp only [List.length_cons]
      omega
    · rw [if_neg hlt]
      constructor
      · intro hx
        simp at hx
      · intro hx
        exfalso
        simp only [List.length_cons] at hx
        omega

/-- Postcondition of a completed `Register(id)` call, read off the
source: the returned channel is installed at `outbox[id]`, is fresh of
capacity `InboxCapacity` and holds exactly the previously parked
messages in parked order, the watermark becomes `max maxReg id`, the
pending entry for `id` is gone, and nothing else changes. -/
theorem register_spec (st : Broker) (id : InstanceId) (st2 : Broker) (c : Chan)
    (h : st.register id = some (st2, c)) :
    st2.outbox = mapUpdate st.outbox id (some c) ∧
    c.cap = InboxCapacity ∧
    c.buf = (st.pending id).getD [] ∧
    st2.maxReg = max st.maxReg id ∧
    st2.pending id = none ∧
    (∀ j, j ≠ id → st2.pending j = st.pending j) := by
  have hmax : (if st.maxReg < id then id else st.maxReg) = max st.maxReg id := by
    rcases Nat.lt_or_ge st.maxReg id with h1 | h1
    · rw [if_pos h1, Nat.max_eq_right (Nat.le_of_lt h1)]
    · rw [if_neg (Nat.not_lt.mpr h1), Nat.max_eq_left h1]
  cases hp : st.pending id with
  | none =>
    simp only [Broker.register, hp, Option.some.injEq, Prod.mk.injEq] at h
    obtain ⟨hst, hc⟩ := h
    subst hst; subst hc
    exact ⟨rfl, rfl, by simp [hp], hmax, hp, fun j _ => rfl⟩
  | some ms =>
    simp only [Broker.register, hp] at h
    cases hs : sendAll ⟨InboxCapacity, []⟩ ms with
    | none => rw [hs] at h; cases h
    | some c2 =>
      rw [hs] at h
      simp only [Option.some.injEq, Prod.mk.injEq] at h
      obtain ⟨hst, hc⟩ := h
      subst hst; subst hc
      obtain ⟨hcap, hbuf⟩ := sendAll_spec ms ⟨InboxCapacity, []⟩ c2 hs
      exact ⟨rfl, by simpa using hcap, by simp [hp, hbuf], hmax,
        by simp [mapUpdate], fun j hj => by simp [mapUpdate, hj]⟩


/-- Claim C1: for every non-nil envelope the dispatcher takes from the
ingress channel, exactly one `ReportValidation` call is made before it
proceeds to the next message, and the verdict is false exactly when
decoding fails, the decoded record has a nil payload, the instance id
of the message strictly exceeds the snapshotted `maxReg + 1`, or the
external validator returns false; otherwise the verdict is true. -/
theorem c1_single_report_verdict (d : Bytes → Option HareMessage)
    (v : HareMessage → Bool) (st : Broker) (e : GossipMessage) :
    ((processMsg d v st (some e)).2.reports = [true] ∨
     (processMsg d v st (some e)).2.reports = [false]) ∧
    ((processMsg d v st (some e)).2.reports = [false] ↔
      d e.bytes = none ∨
      ∃ hm, d e.bytes = some hm ∧
        (hm.message = none ∨
         ∃ inner, hm.message = some inner ∧
           (st.maxReg + 1 < inner.instanceId ∨ v hm = false))) := by
  cases hd : d e.bytes with
  | none =>
    exact ⟨Or.inr (by simp [processMsg, hd]), by simp [processMsg, hd]⟩
  | some hm =>
    cases hmm : hm.message with
    | none =>
      exact ⟨Or.inr (by simp [processMsg, hd, hmm]), by simp [processMsg, hd, hmm]⟩
    | some inner =>
      by_cases hfar : st.maxReg + 1 < inner.instanceId
      · exact ⟨Or.inr (by simp [processMsg, hd, hmm, hfar]),
          by simp [processMsg, hd, hmm, hfar]⟩
      · by_cases hv : v hm = false
        · exact ⟨Or.inr (by simp [processMsg, hd, hmm, hfar, hv]),
            by simp [processMsg, hd, hmm, hfar, hv]⟩
        · have hrep : (processMsg d v st (some e)).2.reports = [true] := by
            cases hout : st.outbox inner.instanceId with
            | some c => simp [processMsg, hd, hmm, hfar, hv, hout]
            | none =>
              by_cases hfut : inner.instanceId = st.maxReg + 1
              · rw [hfut] at hout
                simp [processMsg, hd, hmm, hfar, hv, hout, hfut]
              · simp [processMsg, hd, hmm, hfar, hv, hout, hfut]
          refine ⟨Or.inl hrep, ?_⟩
          rw [hrep]
          simp [hd, hmm, hfar, hv]

/-- Claim C3: a successfully decoded message with non-nil payload whose
instance id strictly exceeds the snapshotted `maxReg + 1` gets a single
`ReportValidation(false)`, the external validator is never invoked on
it, nothing is enqueued anywhere, and the broker state (in particular
`pending`) is unchanged. -/
theorem c3_far_future_discard (d : Bytes → Option HareMessage)
    (v : HareMessage → Bool) (st : Broker) (e : GossipMessage)
    (hm : HareMessage) (inner : InnerMsg) (hdec : d e.bytes = some hm)
    (hmsg : hm.message = some inner)
    (hfar : st.maxReg + 1 < inner.instanceId) :
    processMsg d v st (some e) = (st, ⟨[false], [], []⟩) := by
  simp [processMsg, hdec, hmsg, hfar]

/-- Claim C7: a decoded message whose instance id is at most the
snapshotted watermark and whose id has no outbox entry — for example an
id that was registered and later unregistered — passes the gate and the
validator, gets `ReportValidation(true)`, yet is delivered to no queue
and is not added to `pending`: the broker state is unchanged. -/
theorem c7_past_message_dropped (d : Bytes → Option HareMessage)
    (v : HareMessage → Bool) (st : Broker) (e : GossipMessage)
    (hm : HareMessage) (inner : InnerMsg) (hdec : d e.bytes = some hm)
    (hmsg : hm.message = some inner)
    (hpast : inner.instanceId ≤ st.maxReg)
    (hout : st.outbox inner.instanceId = none) (hval : v hm = true) :
    processMsg d v st (some e) = (st, ⟨[true], [hm], []⟩) := by
  have hfar : ¬ st.maxReg + 1 < inner.instanceId :=
    Nat.not_lt.mpr (Nat.le_succ_of_le hpast)
  have hfut : ¬ inner.instanceId = st.maxReg + 1 := by
    intro heq
    rw [heq] at hpast
    exact Nat.not_succ_le_self st.maxReg hpast
  simp [processMsg, hdec, hmsg, hfar, hval, hout, hfut]

/-- Claim C9: `Unregister(id)` removes only the outbox entry for `id`:
`pending`, `maxReg` and every other outbox entry are untouched, and when
`id` has no outbox entry the whole broker state is unchanged. -/
theorem c9_unregister_frame (st : Broker) (id : InstanceId) :
    (st.unregister id).outbox id = none ∧
    (st.unregister id).pending = st.pending ∧
    (st.unregister id).maxReg = st.maxReg ∧
    (∀ j, j ≠ id → (st.unregister id).outbox j = st.outbox j) ∧
    (st.outbox id = none → st.unregister id = st) := by
  refine ⟨by simp [Broker.unregister, mapUpdate], rfl, rfl,
    fun j hj => by simp [Broker.unregister, mapUpdate, hj], ?_⟩
  intro h0
  have hsame : mapUpdate st.outbox id none = st.outbox := by
    funext j
    by_cases hj : j = id
    · rw [hj]; simp [mapUpdate, h0]
    · simp [mapUpdate, hj]
  show { st with outbox := mapUpdate st.outbox id none } = st
  rw [hsame]

/-- Claim C10: `Register(id)` terminates exactly when at most
`InboxCapacity` (100) messages are parked for `id`: the pending sweep
fills the fresh capacity-100 channel under the write lock, before any
consumer can receive, so with more than 100 parked messages the call
blocks forever (modelled as returning `none`). -/
theorem c10_register_terminates_iff (st : Broker) (id : InstanceId) :
    (st.register id).isSome = true ↔
      ((st.pending id).getD []).length ≤ InboxCapacity := by
  cases hp : st.pending id with
  | none => simp [Broker.register, hp]
  | some ms =>
    have h := sendAll_isSome_iff ms ⟨InboxCapacity, []⟩ (by simp)
    simp only [List.length_nil, Nat.zero_add] at h
    simp only [Broker.register, hp, Option.getD_some]
    cases hs : sendAll ⟨InboxCapacity, []⟩ ms with
    | none =>
      rw [hs] at h
      simpa using h
    | some c2 =>
      rw [hs] at h
      simpa using h

/-- Claim C2: a completed `Register(id)` call installs a fresh queue of
capacity 100 at `outbox[id]` holding exactly the previously parked
messages in parked order, raises `maxReg` to `max maxReg id`, deletes
the pending entry for `id`, changes nothing else, and returns that
queue; any message routed to `id` by a later dispatcher iteration is
appended after the swept messages, so the queue yields the parked
messages first. -/
theorem c2_register_contract (st : Broker) (id : InstanceId) (st2 : Broker)
    (c : Chan) (h : st.register id = some (st2, c)) :
    st2.outbox id = some c ∧
    c.cap = InboxCapacity ∧
    c.buf = (st.pending id).getD [] ∧
    st2.maxReg = max st.maxReg id ∧
    st2.pending id = none ∧
    (∀ j, j ≠ id → st2.pending j = st.pending j ∧ st2.outbox j = st.outbox j) ∧
    (∀ d v env, (processMsg d v st2 env).1.outbox id = some c ∨
      ∃ m, (processMsg d v st2 env).1.outbox id = some (c.push m)) := by
  obtain ⟨hob, hcap, hbuf, hmax, hpid, hpj⟩ := register_spec st id st2 c h
  have hid : st2.outbox id = some c := by rw [hob]; simp [mapUpdate]
  refine ⟨hid, hcap, hbuf, hmax, hpid,
    fun j hj => ⟨hpj j hj, by rw [hob]; simp [mapUpdate, hj]⟩, ?_⟩
  intro d v env
  rcases processMsg_state_cases d v st2 env with hst | ⟨i, c1, m, hout, hst⟩ | ⟨m, _, hst⟩
  · left; rw [hst]; exact hid
  · by_cases hij : i = id
    · subst hij
      have hc1 : c1 = c := by rw [hout] at hid; exact Option.some.inj hid
      right
      refine ⟨m, ?_⟩
      rw [hst, hc1]
      simp [deliverTo, mapUpdate]
    · left
      rw [hst]
      simpa [deliverTo, mapUpdate, Ne.symm hij] using hid
  · left
    rw [hst]
    exact hid

/-- Claim C5: in every reachable broker state, an id with an outbox
entry has no pending entry: messages are parked only for unregistered
ids, and `Register(id)` drains and clears `pending[id]` in the same step
that installs `outbox[id]`. -/
theorem c5_registered_has_no_pending (d : Bytes → Option HareMessage)
    (v : HareMessage → Bool) (b : Broker) (h : Reachable d v b) :
    ∀ i, (b.outbox i).isSome = true → b.pending i = none := by
  induction h with
  | init =>
    intro i hi
    simp [initBroker] at hi
  | @step st st2 hr hs ih =>
    cases hs with
    | msg env =>
      rcases processMsg_state_cases d v st env with heq | ⟨i0, c0, m0, hout0, heq⟩ |
        ⟨m0, hout0, heq⟩
      · rw [heq]; exact ih
      · rw [heq]
        intro i hi
        show st.pending i = none
        apply ih i
        by_cases hii : i = i0
        · subst hii; rw [hout0]; rfl
        · simpa [deliverTo, mapUpdate, hii] using hi
      · rw [heq]
        intro i hi
        have hi2 : (st.outbox i).isSome = true := hi
        have hine : i ≠ st.maxReg + 1 := by
          intro hieq
          rw [hieq, hout0] at hi2
          cases hi2
        simpa [parkAt, mapUpdate, hine] using ih i hi2
    | reg id st3 c hreg =>
      obtain ⟨hob, _, _, _, hpid, hpj⟩ := register_spec st id st2 c hreg
      intro i hi
      by_cases hii : i = id
      · subst hii; exact hpid
      · rw [hpj i hii]
        apply ih i
        rw [hob] at hi
        simpa [mapUpdate, hii] using hi
    | unreg id =>
      intro i hi
      by_cases hii : i = id
      · subst hii
        have hnone : ((st.unregister i).outbox i) = none := by
          simp [Broker.unregister, mapUpdate]
        rw [hnone] at hi
        cases hi
      · show st.pending i = none
        apply ih i
        simpa [Broker.unregister, mapUpdate, hii] using hi

/-- Claim C6: `maxReg` is non-decreasing over the lifetime of the broker:
no dispatcher iteration, `Register` or `Unregister` lowers it — and a
completed `Register(id)` with `id ≤ maxReg` leaves it unchanged. -/
theorem c6_maxReg_monotone :
    (∀ (d : Bytes → Option HareMessage) (v : HareMessage → Bool)
      (st st2 : Broker), Step d v st st2 → st.maxReg ≤ st2.maxReg) ∧
    (∀ (st : Broker) (id : InstanceId) (st2 : Broker) (c : Chan),
      st.register id = some (st2, c) → id ≤ st.maxReg →
        st2.maxReg = st.maxReg) := by
  constructor
  · intro d v st st2 hs
    cases hs with
    | msg env =>
      rw [processMsg_maxReg]
    | reg id st3 c hreg =>
      rw [(register_spec st id st2 c hreg).2.2.2.1]
      exact Nat.le_max_left _ _
    | unreg id => exact Nat.le_refl _
  · intro st id st2 c hreg hle
    rw [(register_spec st id st2 c hreg).2.2.2.1]
    exact Nat.max_eq_left hle

/-- Under no-skip registration every populated pending key is exactly
the current watermark plus one. -/
theorem noskip_pending_at_watermark (d : Bytes → Option HareMessage)
    (v : HareMessage → Bool) (b : Broker) (h : ReachableNoSkip d v b) :
    ∀ i, PendingPopulated b i → i = b.maxReg + 1 := by
  induction h with
  | init =>
    intro i hi
    obtain ⟨l, hl, _⟩ := hi
    simp [initBroker] at hl
  | @step st st2 hr hs ih =>
    cases hs with
    | msg env =>
      rcases processMsg_state_cases d v st env with heq | ⟨i0, c0, m0, hout0, heq⟩ |
        ⟨m0, hout0, heq⟩
      · rw [heq]; exact ih
      · rw [heq]
        intro i hi
        exact ih i hi
      · rw [heq]
        intro i hi
        by_cases hii : i = st.maxReg + 1
        · exact hii
        · apply ih i
          obtain ⟨l, hl, hne⟩ := hi
          refine ⟨l, ?_, hne⟩
          simpa [parkAt, mapUpdate, hii] using hl
    | reg id st3 c hle hreg =>
      obtain ⟨_, _, _, hmax, hpid, hpj⟩ := register_spec st id st2 c hreg
      intro i hi
      obtain ⟨l, hl, hne⟩ := hi
      by_cases hii : i = id
      · subst hii
        rw [hpid] at hl
        cases hl
      · rw [hpj i hii] at hl
        have hi0 : i = st.maxReg + 1 := ih i ⟨l, hl, hne⟩
        rw [hmax]
        by_cases hid : id = st.maxReg + 1
        · exact absurd (hi0.trans hid.symm) hii
        · have hle2 : id ≤ st.maxReg := by
            rcases Nat.lt_or_ge id (st.maxReg + 1) with h1 | h1
            · exact Nat.lt_succ_iff.mp h1
            · exact absurd (Nat.le_antisymm hle h1) hid
          rw [Nat.max_eq_left hle2]
          exact hi0
    | unreg id =>
      intro i hi
      exact ih i hi

/-- Claim C4 (amended): in every broker state reachable by dispatcher
steps and `Register`/`Unregister` calls in which every `Register` call
used an id at most `maxReg + 1` at the time of the call, the pending map
has at most one populated key. -/
theorem c4_amended_at_most_one_pending (d : Bytes → Option HareMessage)
    (v : HareMessage → Bool) (st : Broker) (h : ReachableNoSkip d v st) :
    AtMostOnePending st := by
  intro i j hi hj
  rw [noskip_pending_at_watermark d v st h i hi,
    noskip_pending_at_watermark d v st h j hj]

/-- Claim C4 as stated is false on the code: the state `cexC`, reachable
by two dispatcher iterations around a `Register(5)` call, has both
`pending[1]` and `pending[6]` non-empty. -/
theorem c4_counterexample :
    Reachable decode0 validate0 cexC ∧ ¬ AtMostOnePending cexC := by
  constructor
  · have h1 : Reachable decode0 validate0 cexA :=
      Reachable.step Reachable.init (Step.msg initBroker (some ⟨[1, 0]⟩))
    have h2 : Reachable decode0 validate0 cexB :=
      Reachable.step h1 (Step.reg cexA 5 cexB ⟨InboxCapacity, []⟩ rfl)
    exact Reachable.step h2 (Step.msg cexB (some ⟨[6, 0]⟩))
  · intro h
    have h16 := h 1 6 ⟨[⟨some ⟨1, 0⟩⟩], rfl, by simp⟩ ⟨[⟨some ⟨6, 0⟩⟩], rfl, by simp⟩
    exact absurd h16 (by decide)

/-- Witness for C1: on a concrete envelope the dispatcher makes exactly
one report. -/
theorem c1_witness :
    (processMsg decode0 validate0 initBroker (some ⟨[1, 0]⟩)).2.reports = [true] ∨
    (processMsg decode0 validate0 initBroker (some ⟨[1, 0]⟩)).2.reports = [false] :=
  (c1_single_report_verdict decode0 validate0 initBroker ⟨[1, 0]⟩).1

/-- Witness for C2: registering id 1 with two parked messages returns a
fresh capacity-100 queue holding them in parked order. -/
theorem c2_witness :
    regPair.1.outbox 1 = some regPair.2 ∧
    regPair.2.cap = InboxCapacity ∧
    regPair.2.buf = (twoPendingSt.pending 1).getD [] ∧
    regPair.1.maxReg = max twoPendingSt.maxReg 1 ∧
    regPair.1.pending 1 = none :=
  have h := c2_register_contract twoPendingSt 1 regPair.1 regPair.2 rfl
  ⟨h.1, h.2.1, h.2.2.1, h.2.2.2.1, h.2.2.2.2.1⟩

/-- Witness for C3: with watermark 0, a message for instance 5 is
reported false and discarded without touching the state. -/
theorem c3_witness :
    processMsg decode0 validate0 initBroker (some ⟨[5, 0]⟩) =
      (initBroker, ⟨[false], [], []⟩) :=
  c3_far_future_discard decode0 validate0 initBroker ⟨[5, 0]⟩ ⟨some ⟨5, 0⟩⟩ ⟨5, 0⟩
    rfl rfl (by decide)

/-- Witness for C4 (amended): the fresh broker satisfies the pending
bound. -/
theorem c4_witness : AtMostOnePending initBroker :=
  c4_amended_at_most_one_pending decode0 validate0 initBroker ReachableNoSkip.init

/-- Witness for C5: after `Register(3)` the reachable state has no
pending entry for 3. -/
theorem c5_witness : reg3St.pending 3 = none :=
  c5_registered_has_no_pending decode0 validate0 reg3St
    (Reachable.step Reachable.init (Step.reg initBroker 3 reg3St ⟨InboxCapacity, []⟩ rfl))
    3 rfl

/-- Witness for C6: an `Unregister` step keeps the watermark, and
`Register(0)` below the watermark leaves it unchanged. -/
theorem c6_witness :
    initBroker.maxReg ≤ (initBroker.unregister 0).maxReg ∧
    reg0St.maxReg = initBroker.maxReg :=
  ⟨c6_maxReg_monotone.1 decode0 validate0 initBroker (initBroker.unregister 0)
      (Step.unreg initBroker 0),
    c6_maxReg_monotone.2 initBroker 0 reg0St ⟨InboxCapacity, []⟩ rfl (Nat.le_refl 0)⟩

/-- Witness for C7: after `Register(3)` then `Unregister(3)`, a message
for instance 3 is reported true, validated, and dropped silently. -/
theorem c7_witness :
    processMsg decode0 validate0 (reg3St.unregister 3) (some ⟨[3, 7]⟩) =
      (reg3St.unregister 3, ⟨[true], [⟨some ⟨3, 7⟩⟩], []⟩) :=
  c7_past_message_dropped decode0 validate0 (reg3St.unregister 3) ⟨[3, 7]⟩
    ⟨some ⟨3, 7⟩⟩ ⟨3, 7⟩ rfl rfl (by decide) rfl rfl

/-- Witness for C9: unregistering the never-registered id 2 leaves the
fresh broker exactly unchanged. -/
theorem c9_witness :
    (initBroker.unregister 2).pending = initBroker.pending ∧
    initBroker.unregister 2 = initBroker :=
  ⟨(c9_unregister_frame initBroker 2).2.1,
    (c9_unregister_frame initBroker 2).2.2.2.2 rfl⟩

/-- Witness for C10: with 101 messages parked for instance 5,
`Register(5)` blocks forever. -/
theorem c10_witness : bigPendSt.register 5 = none := by
  have h := c10_register_terminates_iff bigPendSt 5
  cases hreg : bigPendSt.register 5 with
  | none => rfl
  | some x =>
    exfalso
    have h1 : ((bigPendSt.pending 5).getD []).length ≤ InboxCapacity :=
      h.mp (by rw [hreg]; rfl)
    have h2 : ((bigPendSt.pending 5).getD []).length = 101 := by
      simp [bigPendSt, mapUpdate]
    rw [h2] at h1
    exact absurd h1 (by decide)

end HareBroker
